import Mathlib

/-!
Verification development for the vscode-debug-bridge repository.

The definitions below are shallow embeddings of the JavaScript source:
the client-side command broker and event dispatcher
(`create_vscode_extension_client`), and the server-side extension
(`extension.js`): response construction, breakpoint registry, condition
classification, execution-state machine and the status query.
Stateful code is embedded as explicit state passing; the asynchronous
environment (socket messages, timer firings, disconnects) is embedded as
a trace of events consumed by a step function.
-/

namespace VDB

/-- The ASCII single-quote character as a string, used verbatim in error
messages produced by the client. -/
def squote : String := String.singleton (Char.ofNat 39)

/-! ## Command Broker (client, `send_command` / `handle_message` / `ws.onclose`)

A `PendingEntry` models one entry of the `pending_commands` map together
with the command name and timeout bound captured by the closures in
`send_command`.  The trace events model the asynchronous callbacks that
mutate the map after a command has been successfully issued (entry
registered and `ws.send` returned without throwing): an inbound response
frame handled by `handle_message`, the firing of the `setTimeout` timer,
and the transport `onclose` callback.  The `settled` list records every
resolution or rejection of a caller promise, in order. -/

/-- One entry of the `pending_commands` map, keyed by correlation id. -/
structure PendingEntry where
  id : String
  command : String
  timeout : Nat
deriving Repr, DecidableEq

/-- The ways a pending command promise is settled. -/
inductive Outcome where
  | resolved
  | hostError (msg : String)
  | timedOut (msg : String)
  | disconnected (msg : String)
deriving Repr, DecidableEq

/-- The rejection message built by the `setTimeout` handler in `send_command`. -/
def timeout_message (command : String) (timeout : Nat) : String :=
  "Command " ++ squote ++ command ++ squote ++ " timed out after " ++
    toString timeout ++ "ms"

/-- The rejection message used by `ws.onclose` for every pending command. -/
def connection_closed_message : String := "Connection closed"

/-- Broker state: the pending map and the log of promise settlements. -/
structure BrokerState where
  pending : List PendingEntry
  settled : List (String × Outcome)
deriving Repr, DecidableEq

/-- Asynchronous events mutating the broker state. -/
inductive BrokerEv where
  | response (id : String) (success : Bool) (err : Option String)
  | timeoutFire (id : String)
  | disconnect
deriving Repr, DecidableEq

/-- One event-loop turn of the broker.

`response` embeds `handle_message` for a response frame: a matching
pending entry is deleted and the promise resolved on `success`, else
rejected with `message.error || 'Command failed'`; an unmatched id is
silently dropped.  `timeoutFire` embeds the `setTimeout` handler: the
entry is deleted and the promise rejected with the timeout message.
`disconnect` embeds `ws.onclose`: every pending command is rejected with
the connection-closed error and the map is cleared. -/
def broker_step (s : BrokerState) (ev : BrokerEv) : BrokerState :=
  match ev with
  | .response id success err =>
    match s.pending.find? (fun e => e.id == id) with
    | some _ =>
      { pending := s.pending.filter (fun e => !(e.id == id)),
        settled := s.settled ++
          [(id, if success then Outcome.resolved
                else Outcome.hostError (err.getD "Command failed"))] }
    | none => s
  | .timeoutFire id =>
    match s.pending.find? (fun e => e.id == id) with
    | some e =>
      { pending := s.pending.filter (fun x => !(x.id == id)),
        settled := s.settled ++
          [(id, Outcome.timedOut (timeout_message e.command e.timeout))] }
    | none => s
  | .disconnect =>
    { pending := [],
      settled := s.settled ++
        s.pending.map (fun e => (e.id, Outcome.disconnected connection_closed_message)) }

/-- Run the broker over a trace of asynchronous events. -/
def broker_run (s : BrokerState) (tr : List BrokerEv) : BrokerState :=
  tr.foldl broker_step s

/-- Number of settlements recorded for a given correlation id. -/
def settle_count (id : String) (s : BrokerState) : Nat :=
  s.settled.countP (fun x => x.1 == id)

/-- Number of pending entries carrying a given correlation id. -/
def pend_count (id : String) (s : BrokerState) : Nat :=
  s.pending.countP (fun e => e.id == id)

/-- Broker invariant: for every id, the settlements it has received plus
the pending entries it still owns never exceed one.  It holds for the
state right after any set of commands with pairwise distinct ids has
been issued (each id pending once, settled zero times). -/
def BrokerInv (s : BrokerState) : Prop :=
  ∀ id, settle_count id s + pend_count id s ≤ 1

/-! ## Wire responses (server, `send_response` / `handle_command`) -/

/-- A response frame as built by `send_response` in the extension. -/
structure WireResponse (α : Type) where
  id : Option String
  success : Bool
  data : Option α
  error : Option String
deriving Repr, DecidableEq

/-- Embedding of `send_response`: the frame nulls `data` unless
`success` and nulls `error` when `success`. -/
def send_response {α : Type} (id : Option String) (success : Bool)
    (data : Option α) (error : Option String) : WireResponse α :=
  { id := id, success := success,
    data := if success then data else none,
    error := if success then none else error }

/-- Embedding of `send_error`. -/
def send_error {α : Type} (id : Option String) (msg : String) : WireResponse α :=
  send_response id false none (some msg)

/-- The response produced by the tail of `handle_command`: the handler
result on success, or `send_error` with the thrown message. -/
def respond_to_handler {α : Type} (id : String) (outcome : Except String α) :
    WireResponse α :=
  match outcome with
  | .ok r => send_response (some id) true (some r) none
  | .error m => send_error (some id) m

/-! ## Broker lemmas and theorems (claims C1, C5, C10) -/

theorem countP_filter_ne (l : List PendingEntry) (idq id : String) (h : idq ≠ id) :
    (l.filter (fun e => !(e.id == id))).countP (fun e => e.id == idq) =
      l.countP (fun e => e.id == idq) := by
  rw [List.countP_filter]
  refine List.countP_congr ?_
  intro a _
  constructor
  · intro ha
    exact (Bool.and_elim_left ha)
  · intro ha
    have : a.id = idq := by simpa using ha
    simp [this, h]

theorem countP_filter_self (l : List PendingEntry) (id : String) :
    (l.filter (fun e => !(e.id == id))).countP (fun e => e.id == id) = 0 := by
  rw [List.countP_eq_zero]
  intro a ha
  have := (List.mem_filter.mp ha).2
  simp at this
  simp [this]

theorem broker_inv_step (s : BrokerState) (ev : BrokerEv) (h : BrokerInv s) :
    BrokerInv (broker_step s ev) := by
  intro idq
  cases ev with
  | response id succ err =>
    cases hf : s.pending.find? (fun e => e.id == id) with
    | none => simpa [broker_step, hf] using h idq
    | some e =>
      have hpos : 1 ≤ pend_count id s := by
        have hmem := List.mem_of_find?_eq_some hf
        have hp := List.find?_some hf
        exact List.countP_pos_iff.mpr ⟨e, hmem, hp⟩
      by_cases hq : idq = id
      · subst hq
        have h0 : settle_count idq s = 0 := by
          have := h idq
          omega
        have h0x : List.countP (fun x => x.1 == idq) s.settled = 0 := h0
        simp only [broker_step, hf, settle_count, pend_count, List.countP_append,
          List.countP_cons, List.countP_nil]
        rw [countP_filter_self, h0x]
        split <;> omega
      · simp only [broker_step, hf, settle_count, pend_count, List.countP_append]
        rw [countP_filter_ne _ _ _ hq]
        have hone : List.countP (fun x => x.1 == idq)
            [((id, if succ = true then Outcome.resolved
                   else Outcome.hostError (err.getD "Command failed")) : String × Outcome)] = 0 := by
          simp [List.countP_cons, List.countP_nil, Ne.symm hq]
        rw [hone]
        have hx : List.countP (fun x => x.1 == idq) s.settled +
            List.countP (fun e => e.id == idq) s.pending ≤ 1 := h idq
        omega
  | timeoutFire id =>
    cases hf : s.pending.find? (fun e => e.id == id) with
    | none => simpa [broker_step, hf] using h idq
    | some e =>
      have hpos : 1 ≤ pend_count id s := by
        have hmem := List.mem_of_find?_eq_some hf
        have hp := List.find?_some hf
        exact List.countP_pos_iff.mpr ⟨e, hmem, hp⟩
      by_cases hq : idq = id
      · subst hq
        have h0 : settle_count idq s = 0 := by
          have := h idq
          omega
        have h0x : List.countP (fun x => x.1 == idq) s.settled = 0 := h0
        simp only [broker_step, hf, settle_count, pend_count, List.countP_append,
          List.countP_cons, List.countP_nil]
        rw [countP_filter_self, h0x]
        split <;> omega
      · simp only [broker_step, hf, settle_count, pend_count, List.countP_append]
        rw [countP_filter_ne _ _ _ hq]
        have hone : List.countP (fun x => x.1 == idq)
            [((id, Outcome.timedOut (timeout_message e.command e.timeout)) : String × Outcome)] = 0 := by
          simp [List.countP_cons, List.countP_nil, Ne.symm hq]
        rw [hone]
        have hx : List.countP (fun x => x.1 == idq) s.settled +
            List.countP (fun e => e.id == idq) s.pending ≤ 1 := h idq
        omega
  | disconnect =>
    simp only [broker_step, settle_count, pend_count, List.countP_append, List.countP_map,
      List.countP_nil]
    have hmap : List.countP ((fun x => x.1 == idq) ∘
        fun e => (e.id, Outcome.disconnected connection_closed_message)) s.pending =
        List.countP (fun e => e.id == idq) s.pending := rfl
    rw [hmap]
    have := h idq
    simp [settle_count, pend_count] at this
    omega

theorem broker_inv_run (s : BrokerState) (tr : List BrokerEv) (h : BrokerInv s) :
    BrokerInv (broker_run s tr) := by
  induction tr generalizing s with
  | nil => exact h
  | cons ev tr ih => exact ih _ (broker_inv_step s ev h)

/-- C1: for every send issued on one connection (modelled as a broker
state where each issued id has one pending entry and no settlement),
the pending command settles at most once over any trace of responses,
timer firings and disconnects; on disconnect every remaining pending
command is rejected with the connection-closed error and the pending map
is cleared, so that a later response for any id finds no entry and
changes nothing. -/
theorem command_settles_at_most_once
    (init : BrokerState) (hinv : BrokerInv init) (tr : List BrokerEv) :
    (∀ id, settle_count id (broker_run init tr) ≤ 1)
    ∧ (∀ s : BrokerState, (broker_step s BrokerEv.disconnect).pending = []
        ∧ ∀ e ∈ s.pending,
            (e.id, Outcome.disconnected connection_closed_message)
              ∈ (broker_step s BrokerEv.disconnect).settled)
    ∧ (∀ (s : BrokerState) (id : String) (succ : Bool) (err : Option String),
        s.pending = [] → broker_step s (BrokerEv.response id succ err) = s) := by
  refine ⟨?_, ?_, ?_⟩
  · intro id
    have := broker_inv_run init tr hinv id
    omega
  · intro s
    constructor
    · rfl
    · intro e he
      simp only [broker_step]
      exact List.mem_append_right _ (List.mem_map_of_mem _ he)
  · intro s id succ err hp
    simp [broker_step, hp]

/-- Witness for C1 at a concrete one-command state and a disconnect trace. -/
theorem command_settles_at_most_once_witness :
    settle_count "cmd_1_17" (broker_run ⟨[⟨"cmd_1_17", "status", 10000⟩], []⟩
      [BrokerEv.disconnect]) ≤ 1 :=
  (command_settles_at_most_once ⟨[⟨"cmd_1_17", "status", 10000⟩], []⟩
    (by
      intro id
      have h1 : pend_count id ⟨[⟨"cmd_1_17", "status", 10000⟩], []⟩ ≤ 1 := by
        simp only [pend_count, List.countP_cons, List.countP_nil]
        split <;> omega
      have h0 : settle_count id ⟨[⟨"cmd_1_17", "status", 10000⟩], []⟩ = 0 := rfl
      omega)
    [BrokerEv.disconnect]).1 "cmd_1_17"

/-- C5: when the timer of a pending command fires, its entry is removed
from the pending map and the promise is rejected with the timeout
message naming the command and the timeout bound; a response arriving
for an id with no pending entry leaves the broker state entirely
unchanged (silently dropped). -/
theorem timeout_removes_entry_and_late_response_dropped :
    (∀ (s : BrokerState) (e : PendingEntry),
        s.pending.find? (fun x => x.id == e.id) = some e →
          pend_count e.id (broker_step s (BrokerEv.timeoutFire e.id)) = 0
          ∧ (e.id, Outcome.timedOut (timeout_message e.command e.timeout))
              ∈ (broker_step s (BrokerEv.timeoutFire e.id)).settled)
    ∧ (∀ (s : BrokerState) (id : String) (succ : Bool) (err : Option String),
        s.pending.find? (fun x => x.id == id) = none →
          broker_step s (BrokerEv.response id succ err) = s) := by
  constructor
  · intro s e hf
    constructor
    · simp only [broker_step, hf, pend_count]
      exact countP_filter_self s.pending e.id
    · simp only [broker_step, hf]
      exact List.mem_append_right _ (by simp)
  · intro s id succ err hf
    simp [broker_step, hf]

/-- Witness for C5 at a concrete pending entry and an empty map. -/
theorem timeout_removes_entry_witness :
    pend_count "cmd_1_5" (broker_step ⟨[⟨"cmd_1_5", "status", 50⟩], []⟩
      (BrokerEv.timeoutFire "cmd_1_5")) = 0 := by
  have h := timeout_removes_entry_and_late_response_dropped.1
    ⟨[⟨"cmd_1_5", "status", 50⟩], []⟩ ⟨"cmd_1_5", "status", 50⟩ (by rfl)
  exact h.1

/-- C10: every response frame the server produces keeps `data` and
`error` mutually exclusive: a successful frame has `error = none` and a
failed frame has `data = none`; the frame built from a thrown handler
error carries the handler message verbatim, and the frame built from a
handler result carries the result. -/
theorem response_data_error_exclusive :
    (∀ (α : Type) (id : Option String) (success : Bool) (d : Option α) (err : Option String),
        ((send_response id success d err).success = true →
          (send_response id success d err).error = none)
        ∧ ((send_response id success d err).success = false →
          (send_response id success d err).data = none))
    ∧ (∀ (α : Type) (id : String) (r : α),
        (respond_to_handler id (Except.ok r)).success = true
        ∧ (respond_to_handler id (Except.ok r)).data = some r
        ∧ (respond_to_handler id (Except.ok r)).error = none)
    ∧ (∀ (α : Type) (id : String) (m : String),
        (respond_to_handler id (Except.error m : Except String α)).success = false
        ∧ (respond_to_handler id (Except.error m : Except String α)).data = none
        ∧ (respond_to_handler id (Except.error m : Except String α)).error = some m) := by
  refine ⟨?_, ?_, ?_⟩
  · intro α id success d err
    constructor
    · intro h
      simp only [send_response]
      simp only [send_response] at h
      simp [h]
    · intro h
      simp only [send_response]
      simp only [send_response] at h
      simp [h]
  · intro α id r
    exact ⟨rfl, rfl, rfl⟩
  · intro α id m
    exact ⟨rfl, rfl, rfl⟩

/-- Witness for C10 at a concrete failed frame. -/
theorem response_data_error_exclusive_witness :
    (send_response (some "cmd_1_1") false (some 7) (some "No active debug session")
      : WireResponse Nat).data = none :=
  (response_data_error_exclusive.1 Nat (some "cmd_1_1") false (some 7)
    (some "No active debug session")).2 rfl

/-! ## Execution state machine (server, `debug_state` and the control commands)

`DebugState` models the mutable `debug_state` record of the extension
(the fields the control and status paths touch).  Each control command
is embedded as a function from the committed state and the resolved
thread id to the new committed state, the list of events broadcast
synchronously, and the DAP request issued to the debug host afterwards
(the broadcast happens before the request is awaited, which is why the
events appear in the result independently of any host answer). -/

/-- A stop location as assembled from a top stack frame. -/
structure StopLoc where
  file : Option String
  line : Nat
  function : Option String
  column : Nat
deriving Repr, DecidableEq

/-- The fields of the extension's `debug_state` used by control and status. -/
structure DebugState where
  execution_state : String
  stop_reason : Option String
  stop_location : Option StopLoc
  stopped_at_breakpoint : Bool
  is_running : Bool
deriving Repr, DecidableEq

/-- An event broadcast to every connected client. -/
inductive BridgeEvent where
  | continued (threadId : Option Nat)
deriving Repr, DecidableEq

/-- The DAP request a control command sends to the debug host. -/
inductive HostRequest where
  | hostContinue (threadId : Option Nat)
  | hostNext (threadId : Option Nat)
  | hostStepIn (threadId : Option Nat)
  | hostStepOut (threadId : Option Nat)
deriving Repr, DecidableEq

/-- Embedding of `debug_continue`: committed state set to running with
all stop fields cleared, `dap:continued` broadcast, then the host
`continue` request. -/
def debug_continue (st : DebugState) (thread_id : Option Nat) :
    DebugState × List BridgeEvent × HostRequest :=
  ({ st with execution_state := "running", stop_reason := none,
             stop_location := none, stopped_at_breakpoint := false },
   [BridgeEvent.continued thread_id], HostRequest.hostContinue thread_id)

/-- Embedding of `step_over`: only `execution_state` is assigned before
the broadcast and the host `next` request. -/
def step_over (st : DebugState) (thread_id : Option Nat) :
    DebugState × List BridgeEvent × HostRequest :=
  ({ st with execution_state := "running" },
   [BridgeEvent.continued thread_id], HostRequest.hostNext thread_id)

/-- Embedding of `step_in`. -/
def step_in (st : DebugState) (thread_id : Option Nat) :
    DebugState × List BridgeEvent × HostRequest :=
  ({ st with execution_state := "running" },
   [BridgeEvent.continued thread_id], HostRequest.hostStepIn thread_id)

/-- Embedding of `step_out`. -/
def step_out (st : DebugState) (thread_id : Option Nat) :
    DebugState × List BridgeEvent × HostRequest :=
  ({ st with execution_state := "running" },
   [BridgeEvent.continued thread_id], HostRequest.hostStepOut thread_id)

/-- C2 counterexample: at a committed stopped-at-breakpoint state,
`step_over` does not clear `stop_reason` (nor the other stop fields), so
the claim that every resume command clears all stop fields is false. -/
theorem resume_clears_stop_fields_counterexample :
    ¬ ((step_over ⟨"stopped", some "breakpoint",
          some ⟨some "/ws/main.c", 10, some "main", 1⟩, true, true⟩
        (some 1)).1.stop_reason = none) := by
  decide

/-- C2 (amended): every resume control command sets the committed state
to running and broadcasts a `continued` event before issuing the host
request, but only `continue` clears the stop fields; `step_over`,
`step_in` and `step_out` leave `stop_reason`, `stop_location` and
`stopped_at_breakpoint` unchanged. -/
theorem resume_commands_running_and_proactive_continued :
    ∀ (st : DebugState) (tid : Option Nat),
      ((debug_continue st tid).1.execution_state = "running"
        ∧ (debug_continue st tid).1.stop_reason = none
        ∧ (debug_continue st tid).1.stop_location = none
        ∧ (debug_continue st tid).1.stopped_at_breakpoint = false
        ∧ (debug_continue st tid).2.1 = [BridgeEvent.continued tid]
        ∧ (debug_continue st tid).2.2 = HostRequest.hostContinue tid)
      ∧ ((step_over st tid).1.execution_state = "running"
        ∧ (step_over st tid).1.stop_reason = st.stop_reason
        ∧ (step_over st tid).1.stop_location = st.stop_location
        ∧ (step_over st tid).1.stopped_at_breakpoint = st.stopped_at_breakpoint
        ∧ (step_over st tid).2.1 = [BridgeEvent.continued tid])
      ∧ ((step_in st tid).1.execution_state = "running"
        ∧ (step_in st tid).1.stop_reason = st.stop_reason
        ∧ (step_in st tid).1.stop_location = st.stop_location
        ∧ (step_in st tid).1.stopped_at_breakpoint = st.stopped_at_breakpoint
        ∧ (step_in st tid).2.1 = [BridgeEvent.continued tid])
      ∧ ((step_out st tid).1.execution_state = "running"
        ∧ (step_out st tid).1.stop_reason = st.stop_reason
        ∧ (step_out st tid).1.stop_location = st.stop_location
        ∧ (step_out st tid).1.stopped_at_breakpoint = st.stopped_at_breakpoint
        ∧ (step_out st tid).2.1 = [BridgeEvent.continued tid]) := by
  intro st tid
  exact ⟨⟨rfl, rfl, rfl, rfl, rfl, rfl⟩, ⟨rfl, rfl, rfl, rfl, rfl⟩,
    ⟨rfl, rfl, rfl, rfl, rfl⟩, ⟨rfl, rfl, rfl, rfl, rfl⟩⟩

/-! ## Breakpoint registry (server, `get_breakpoints` / `clear_breakpoints` /
`check_if_stopped_at_breakpoint` / `parse_condition`)

The VSCode breakpoint store is modelled as a list of source breakpoints
whose `file` field is the stored filesystem path (`location.uri.fsPath`)
and whose `line0` field is the stored zero-based line
(`location.range.start.line`).  The `fsPath` normalization applied by
`vscode.Uri.file` is kept abstract as a function parameter where it
matters. -/

/-- One `vscode.SourceBreakpoint` as stored by VSCode. -/
structure SrcBreakpoint where
  file : String
  line0 : Nat
  enabled : Bool
  condition : Option String
  hitCondition : Option String
  logMessage : Option String
deriving Repr, DecidableEq

/-- A record returned by `get_breakpoints` (one-based line). -/
structure BpRecord where
  file : String
  line : Nat
  enabled : Bool
  condition : Option String
  hitCondition : Option String
  logMessage : Option String
deriving Repr, DecidableEq

/-- Embedding of `get_breakpoints`: expose each stored breakpoint with a
one-based line number. -/
def get_breakpoints (store : List SrcBreakpoint) : List BpRecord :=
  store.map (fun bp =>
    ⟨bp.file, bp.line0 + 1, bp.enabled, bp.condition, bp.hitCondition, bp.logMessage⟩)

/-- Replace every backslash with a forward slash, as in
`replace(/\\/g, '/')`. -/
def normalize_path (s : String) : String :=
  ⟨s.data.map (fun c => if c = '\\' then '/' else c)⟩

/-- The semantics of the JavaScript `String.prototype.endsWith` call:
the second string is a suffix of the first. -/
def js_ends_with (s t : String) : Bool :=
  decide (t.data <:+ s.data)

/-- The path comparison inside `check_if_stopped_at_breakpoint`. -/
def paths_match (bp_file stop_file : String) : Bool :=
  let a := normalize_path bp_file
  let b := normalize_path stop_file
  a == b || js_ends_with a b || js_ends_with b a

/-- Embedding of `check_if_stopped_at_breakpoint`: find a listed
breakpoint whose path matches and whose line equals the stop line. -/
def check_if_stopped_at_breakpoint (store : List SrcBreakpoint)
    (file : String) (line : Nat) : Option BpRecord :=
  (get_breakpoints store).find? (fun bp => paths_match bp.file file && bp.line == line)

/-- C6: two paths match exactly when, after replacing every backslash
with a forward slash, they are equal or one is a suffix of the other;
and a stop is classified as breakpoint-triggered exactly when some
listed breakpoint matches the stop path under this relation with the
same line. -/
theorem paths_match_iff_suffix :
    (∀ p q : String, paths_match p q = true ↔
        (normalize_path p = normalize_path q
          ∨ (normalize_path q).data <:+ (normalize_path p).data
          ∨ (normalize_path p).data <:+ (normalize_path q).data))
    ∧ (∀ (store : List SrcBreakpoint) (file : String) (line : Nat),
        (check_if_stopped_at_breakpoint store file line).isSome = true ↔
          ∃ bp ∈ get_breakpoints store,
            paths_match bp.file file = true ∧ bp.line = line) := by
  constructor
  · intro p q
    simp [paths_match, js_ends_with, or_assoc]
  · intro store file line
    simp only [check_if_stopped_at_breakpoint]
    rw [List.find?_isSome]
    simp [Bool.and_eq_true]

/-- The opening brace character. -/
def lbrace : Char := Char.ofNat 123

/-- The closing brace character. -/
def rbrace : Char := Char.ofNat 125

/-- Classification result of `parse_condition`: which property of the
DAP breakpoint the free-text condition is stored into. -/
inductive CondClass where
  | logMessage (s : String)
  | hitCondition (s : String)
  | expression (s : String)
  | unconditional
deriving Repr, DecidableEq

/-- The semantics of the JavaScript `String.prototype.includes` call
with a single character argument. -/
def contains_char (s : String) (c : Char) : Bool :=
  s.data.contains c

/-- The semantics of the JavaScript `String.prototype.startsWith` call. -/
def starts_with_lit (s t : String) : Bool :=
  t.data.isPrefixOf s.data

/-- The semantics of the JavaScript `String.prototype.trim` call:
remove leading and trailing whitespace. -/
def js_trim (s : String) : String :=
  ⟨((s.data.dropWhile Char.isWhitespace).reverse.dropWhile Char.isWhitespace).reverse⟩

/-- The anchored regular expression test of `parse_condition`: the
string begins with one of the listed comparators or a percent sign. -/
def starts_with_hit_op (s : String) : Bool :=
  starts_with_lit s ">" || starts_with_lit s "<" || starts_with_lit s ">=" ||
    starts_with_lit s "<=" || starts_with_lit s "==" || starts_with_lit s "!=" ||
    starts_with_lit s "%"

/-- Embedding of `parse_condition` (the absent condition is the empty
string, which is falsy in the source exactly like `null`). -/
def parse_condition (s : String) : CondClass :=
  if s = "" then CondClass.unconditional
  else if contains_char s lbrace && contains_char s rbrace then CondClass.logMessage s
  else if starts_with_hit_op (js_trim s) then CondClass.hitCondition s
  else CondClass.expression s

/-- C7: condition classification proceeds in order — braces first
(log message), then a leading comparator or percent after trimming (hit
condition), then any other non-empty text (expression condition), and an
empty or absent condition is unconditional — with the three example
classifications from the specification. -/
theorem parse_condition_classification :
    (∀ s : String, parse_condition s = CondClass.logMessage s ↔
        s ≠ "" ∧ (contains_char s lbrace && contains_char s rbrace) = true)
    ∧ (∀ s : String, parse_condition s = CondClass.hitCondition s ↔
        s ≠ "" ∧ (contains_char s lbrace && contains_char s rbrace) = false
          ∧ starts_with_hit_op (js_trim s) = true)
    ∧ (∀ s : String, parse_condition s = CondClass.expression s ↔
        s ≠ "" ∧ (contains_char s lbrace && contains_char s rbrace) = false
          ∧ starts_with_hit_op (js_trim s) = false)
    ∧ (∀ s : String, parse_condition s = CondClass.unconditional ↔ s = "")
    ∧ parse_condition "i == 2" = CondClass.expression "i == 2"
    ∧ parse_condition ">5" = CondClass.hitCondition ">5"
    ∧ parse_condition "Loop iteration \x7bi\x7d" =
        CondClass.logMessage "Loop iteration \x7bi\x7d" := by
  refine ⟨?_, ?_, ?_, ?_, ?_, ?_, ?_⟩
  · intro s
    unfold parse_condition
    split_ifs <;> simp_all
  · intro s
    unfold parse_condition
    split_ifs <;> simp_all
  · intro s
    unfold parse_condition
    split_ifs <;> simp_all
  · intro s
    unfold parse_condition
    split_ifs <;> simp_all
  · decide
  · decide
  · decide

/-- The removal predicate of `clear_breakpoints`: the breakpoint is in
the file (stored `fsPath` equal to the `fsPath` of the argument) and,
when a line list is given, its one-based line is listed. -/
def bp_matches_clear (fs_path : String → String) (file : String)
    (lines : Option (List Nat)) (bp : SrcBreakpoint) : Bool :=
  bp.file == fs_path file &&
    match lines with
    | none => true
    | some ls => ls.contains (bp.line0 + 1)

/-- Embedding of `clear_breakpoints`: remove from the store exactly the
breakpoints selected by `bp_matches_clear`. -/
def clear_breakpoints (fs_path : String → String) (store : List SrcBreakpoint)
    (file : String) (lines : Option (List Nat)) : List SrcBreakpoint :=
  store.filter (fun bp => !(bp_matches_clear fs_path file lines bp))

/-- C8: clearing with no line list removes exactly the records of the
file; clearing with a line list removes exactly the records at the
listed (file, line) pairs; afterwards `get_breakpoints` lists no record
for a cleared pair and lists records elsewhere exactly as before. -/
theorem clear_breakpoints_removes_exactly :
    ∀ (fs_path : String → String) (store : List SrcBreakpoint) (file : String),
      (∀ bp : SrcBreakpoint, bp ∈ clear_breakpoints fs_path store file none ↔
          bp ∈ store ∧ ¬ bp.file = fs_path file)
      ∧ (∀ (ls : List Nat) (bp : SrcBreakpoint),
          bp ∈ clear_breakpoints fs_path store file (some ls) ↔
            bp ∈ store ∧ ¬ (bp.file = fs_path file ∧ bp.line0 + 1 ∈ ls))
      ∧ (∀ (ls : List Nat) (r : BpRecord),
          r ∈ get_breakpoints (clear_breakpoints fs_path store file (some ls)) →
            ¬ (r.file = fs_path file ∧ r.line ∈ ls))
      ∧ (∀ (ls : List Nat) (r : BpRecord),
          ¬ (r.file = fs_path file ∧ r.line ∈ ls) →
            (r ∈ get_breakpoints (clear_breakpoints fs_path store file (some ls)) ↔
              r ∈ get_breakpoints store)) := by
  intro fs_path store file
  have hmem : ∀ (lines : Option (List Nat)) (bp : SrcBreakpoint),
      bp ∈ clear_breakpoints fs_path store file lines ↔
        bp ∈ store ∧ bp_matches_clear fs_path file lines bp = false := by
    intro lines bp
    simp [clear_breakpoints, List.mem_filter]
  refine ⟨?_, ?_, ?_, ?_⟩
  · intro bp
    rw [hmem]
    simp [bp_matches_clear]
  · intro ls bp
    rw [hmem]
    simp [bp_matches_clear, List.contains, List.elem_iff, Decidable.not_and_iff_or_not]
  · intro ls r hr hcl
    rcases List.mem_map.mp hr with ⟨bp, hbp, hfr⟩
    rw [hmem] at hbp
    rcases hbp with ⟨_, hfalse⟩
    have hfile : bp.file = fs_path file := by
      rw [← hcl.1, ← hfr]
    have hline : bp.line0 + 1 ∈ ls := by
      have : r.line = bp.line0 + 1 := by rw [← hfr]
      rw [← this]
      exact hcl.2
    simp [bp_matches_clear, hfile, List.contains, List.elem_iff, hline] at hfalse
  · intro ls r hcl
    constructor
    · intro hr
      rcases List.mem_map.mp hr with ⟨bp, hbp, hfr⟩
      exact List.mem_map.mpr ⟨bp, ((hmem (some ls) bp).mp hbp).1, hfr⟩
    · intro hr
      rcases List.mem_map.mp hr with ⟨bp, hbp, hfr⟩
      refine List.mem_map.mpr ⟨bp, ?_, hfr⟩
      rw [hmem]
      refine ⟨hbp, ?_⟩
      have hfile : r.file = bp.file := by rw [← hfr]
      have hline : r.line = bp.line0 + 1 := by rw [← hfr]
      by_cases hf : bp.file = fs_path file
      · have hnl : ¬ bp.line0 + 1 ∈ ls := by
          intro hin
          exact hcl ⟨by rw [hfile, hf], by rw [hline]; exact hin⟩
        simp [bp_matches_clear, List.contains, List.elem_iff, hnl]
      · simp [bp_matches_clear, hf]

/-- Witness for C8: after clearing line 10 of `a.c`, the record of
`b.c` is still listed. -/
theorem clear_breakpoints_removes_exactly_witness :
    (⟨"/ws/b.c", 5, true, none, none, none⟩ : BpRecord) ∈
      get_breakpoints (clear_breakpoints (fun s => s)
        [⟨"/ws/a.c", 9, true, none, none, none⟩, ⟨"/ws/b.c", 4, true, none, none, none⟩]
        "/ws/a.c" (some [10])) :=
  ((clear_breakpoints_removes_exactly (fun s => s)
      [⟨"/ws/a.c", 9, true, none, none, none⟩, ⟨"/ws/b.c", 4, true, none, none, none⟩]
      "/ws/a.c").2.2.2 [10] ⟨"/ws/b.c", 5, true, none, none, none⟩
    (by decide)).mpr (by decide)

/-! ## Status query (server, `handle_status_command`)

The live call-stack fetch (`get_call_stack`, a sequence of awaited debug
host requests wrapped in `try`/`catch`) is embedded as an `Except`
argument; the `catch` branch is the `error` case.  The session fields,
timestamp and port of the real reply are independent of this claim and
elided from the embedded report. -/

/-- A stack frame as produced by `get_call_stack`. -/
structure Frame where
  name : String
  source : Option String
  line : Nat
  column : Nat
deriving Repr, DecidableEq

/-- The per-thread stack of `get_call_stack`. -/
structure ThreadStack where
  thread_id : Nat
  frames : List Frame
deriving Repr, DecidableEq

/-- The execution fields of the reply of `handle_status_command`. -/
structure StatusReport where
  debug_session_active : Bool
  is_running : Bool
  execution_state : String
  stop_reason : Option String
  stop_location : Option StopLoc
  stopped_at_breakpoint : Bool
deriving Repr, DecidableEq

/-- The reply object built at the end of `handle_status_command`:
`stop_reason` falls back to `breakpoint` when the committed reason is
absent but the stop was classified as breakpoint-triggered. -/
def status_report (st1 : DebugState) (session_active : Bool) (curES : String)
    (curLoc : Option StopLoc) (sab : Bool) : StatusReport :=
  { debug_session_active := session_active,
    is_running := st1.is_running,
    execution_state := curES,
    stop_reason :=
      match st1.stop_reason with
      | some r => some r
      | none => if sab then some "breakpoint" else none,
    stop_location := curLoc,
    stopped_at_breakpoint := sab }

/-- Embedding of `handle_status_command`.  The result is the committed
state after the query (the query promotes to a write only when a live
top frame matches a listed breakpoint) together with the reply.  JS
truthiness of `topFrame.source && topFrame.line` is a non-empty source
string and a non-zero line. -/
def handle_status_command (st : DebugState) (session_active : Bool)
    (fetch : Except String (List ThreadStack)) (store : List SrcBreakpoint) :
    DebugState × StatusReport :=
  if session_active then
    match fetch with
    | Except.error _ =>
      (st, status_report st session_active
        (if st.execution_state == "unknown" then "running" else st.execution_state)
        st.stop_location st.stopped_at_breakpoint)
    | Except.ok cs =>
      match cs.head? with
      | none =>
        (st, status_report st session_active st.execution_state
          st.stop_location st.stopped_at_breakpoint)
      | some ts =>
        match ts.frames.head? with
        | none =>
          (st, status_report st session_active st.execution_state
            st.stop_location st.stopped_at_breakpoint)
        | some tf =>
          let curLoc := some (⟨tf.source, tf.line, some tf.name, tf.column⟩ : StopLoc)
          match tf.source with
          | some src =>
            if src ≠ "" ∧ tf.line ≠ 0 then
              if (check_if_stopped_at_breakpoint store src tf.line).isSome then
                let st1 : DebugState :=
                  { st with execution_state := "stopped",
                            stop_reason := some "breakpoint",
                            stop_location := curLoc,
                            stopped_at_breakpoint := true }
                (st1, status_report st1 session_active "stopped" curLoc true)
              else
                (st, status_report st session_active "stopped" curLoc false)
            else
              (st, status_report st session_active "stopped" curLoc st.stopped_at_breakpoint)
          | none =>
            (st, status_report st session_active "stopped" curLoc st.stopped_at_breakpoint)
  else
    (st, status_report st session_active st.execution_state
      st.stop_location st.stopped_at_breakpoint)

/-- C3: when the live call-stack fetch fails, the committed state is
unchanged; if the committed state was `unknown` the reply reports
`running`, otherwise it reports the committed state; the reply carries
the last-known stop location and breakpoint flag. -/
theorem status_degrades_on_fetch_failure :
    ∀ (st : DebugState) (session_active : Bool) (err : String)
      (store : List SrcBreakpoint),
      ((handle_status_command st session_active (Except.error err) store).1 = st)
      ∧ (session_active = true → st.execution_state = "unknown" →
          (handle_status_command st true (Except.error err) store).2.execution_state
            = "running")
      ∧ (st.execution_state ≠ "unknown" →
          (handle_status_command st session_active (Except.error err) store).2.execution_state
            = st.execution_state)
      ∧ ((handle_status_command st session_active (Except.error err) store).2.stop_location
            = st.stop_location)
      ∧ ((handle_status_command st session_active (Except.error err) store).2.stopped_at_breakpoint
            = st.stopped_at_breakpoint) := by
  intro st session_active err store
  cases session_active with
  | false =>
    refine ⟨rfl, ?_, ?_, rfl, rfl⟩
    · intro h
      exact absurd h (by simp)
    · intro _
      rfl
  | true =>
    refine ⟨rfl, ?_, ?_, rfl, rfl⟩
    · intro _ hunk
      simp [handle_status_command, status_report, hunk]
    · intro hne
      simp [handle_status_command, status_report, hne]

/-- Witness for C3: a concrete unknown-state session whose fetch fails
reports `running`. -/
theorem status_degrades_on_fetch_failure_witness :
    (handle_status_command ⟨"unknown", none, none, false, true⟩ true
      (Except.error "No active debug session") []).2.execution_state = "running" :=
  (status_degrades_on_fetch_failure ⟨"unknown", none, none, false, true⟩ true
    "No active debug session" []).2.1 rfl rfl

/-! ## Event dispatcher fan-out (client, `emit_event`)

A subscriber callback is embedded as a `Listener`: its behaviour when
invoked is to return normally or to throw the recorded message.  The
`for` loop of `emit_event` wraps every call in `try`/`catch`, so one
iteration never terminates the loop: the embedding invokes every
listener and totalizes a throw into a `caught` outcome (the logged
warning). -/

/-- A subscriber callback, by identity and behaviour when invoked. -/
structure Listener where
  lid : Nat
  fails : Option String
deriving Repr, DecidableEq

/-- The observable outcome of invoking one callback inside the
`try`/`catch` of the dispatch loop. -/
inductive InvokeOutcome where
  | ok (lid : Nat)
  | caught (lid : Nat) (msg : String)
deriving Repr, DecidableEq

/-- Invoke one callback: a throw is caught and logged. -/
def invoke (l : Listener) : InvokeOutcome :=
  match l.fails with
  | none => InvokeOutcome.ok l.lid
  | some m => InvokeOutcome.caught l.lid m

/-- The namespace of an event name: the segment before the first colon,
as in `event.split(':')[0]`. -/
def namespace_of (event : String) : String :=
  ⟨event.data.takeWhile (fun c => c ≠ ':')⟩

/-- Embedding of `emit_event`: invoke every exact-name subscriber in
order, then every subscriber of the event's namespace, each inside its
own `try`/`catch`. -/
def emit_event (reg nsreg : List (String × List Listener)) (event : String) :
    List InvokeOutcome :=
  (((reg.lookup event).getD []).map invoke) ++
    (((nsreg.lookup (namespace_of event)).getD []).map invoke)

/-- C9: when one subscriber throws — whether it is registered under the
exact event name or under the namespace of the event — the exception is
caught and recorded, every other subscriber in both lists (earlier,
later, exact-name and namespace) is still invoked for the same event,
and the outcome list is complete. -/
theorem subscriber_exception_isolated :
    ∀ (reg nsreg : List (String × List Listener)) (event : String)
      (pre post : List Listener) (l : Listener) (m : String),
      (reg.lookup event = some (pre ++ l :: post)
        ∨ nsreg.lookup (namespace_of event) = some (pre ++ l :: post)) →
      l.fails = some m →
      (invoke l = InvokeOutcome.caught l.lid m)
      ∧ (invoke l ∈ emit_event reg nsreg event)
      ∧ (∀ x ∈ pre, invoke x ∈ emit_event reg nsreg event)
      ∧ (∀ x ∈ post, invoke x ∈ emit_event reg nsreg event)
      ∧ (∀ y ∈ (reg.lookup event).getD [],
          invoke y ∈ emit_event reg nsreg event)
      ∧ (∀ y ∈ (nsreg.lookup (namespace_of event)).getD [],
          invoke y ∈ emit_event reg nsreg event)
      ∧ (emit_event reg nsreg event).length =
          ((reg.lookup event).getD []).length +
            ((nsreg.lookup (namespace_of event)).getD []).length := by
  intro reg nsreg event pre post l m hlook hfail
  have hmeml : l ∈ pre ++ l :: post := by simp
  have hexact : ∀ y ∈ (reg.lookup event).getD [],
      invoke y ∈ emit_event reg nsreg event := by
    intro y hy
    exact List.mem_append_left _ (List.mem_map_of_mem _ hy)
  have hns : ∀ y ∈ (nsreg.lookup (namespace_of event)).getD [],
      invoke y ∈ emit_event reg nsreg event := by
    intro y hy
    exact List.mem_append_right _ (List.mem_map_of_mem _ hy)
  have hside : ∀ x ∈ pre ++ l :: post, invoke x ∈ emit_event reg nsreg event := by
    intro x hx
    cases hlook with
    | inl hl => exact hexact x (by rw [hl]; exact hx)
    | inr hr => exact hns x (by rw [hr]; exact hx)
  refine ⟨?_, ?_, ?_, ?_, hexact, hns, ?_⟩
  · simp [invoke, hfail]
  · exact hside l hmeml
  · intro x hx
    exact hside x (List.mem_append_left _ hx)
  · intro x hx
    exact hside x (List.mem_append_right _ (List.mem_cons_of_mem _ hx))
  · simp [emit_event]

/-- Witness for C9 in the namespace-subscriber case: a throwing middle
namespace subscriber does not prevent the invocation of the later
namespace subscriber on a concrete registry. -/
theorem subscriber_exception_isolated_witness :
    invoke ⟨3, none⟩ ∈ emit_event
      [("dap:stopped", [⟨0, none⟩])]
      [("dap", [⟨1, none⟩, ⟨2, some "boom"⟩, ⟨3, none⟩])] "dap:stopped" :=
  ((subscriber_exception_isolated
      [("dap:stopped", [⟨0, none⟩])]
      [("dap", [⟨1, none⟩, ⟨2, some "boom"⟩, ⟨3, none⟩])] "dap:stopped"
      [⟨1, none⟩] [⟨3, none⟩] ⟨2, some "boom"⟩ "boom"
      (Or.inr (by decide)) rfl).2.2.2.1 ⟨3, none⟩ (by decide))

/-! ## Wait-for-event (client, `wait_for_event`)

`wait_for_event` registers one temporary handler per listed name and one
timeout timer; the handler map `event_handlers` is keyed by name, so for
a duplicated name the later registration overwrites the map entry of the
earlier one.  The registry of temporary listeners is embedded as the
list of still-registered handler indices into the name list: handler `j`
is the one registered for the j-th listed name, and the listener array
of a name `e` is, in registration order, the still-registered indices
`j` whose name is `e`.  A handler invocation clears the timer, calls
`client.off(e, event_handlers.get(e))` for every listed `e` (removing
the last handler registered for `e`), and resolves with its captured
event name; the timeout handler removes the same handlers and rejects.
Event delivery is embedded as a loop that re-reads the live listener
list while its index advances, exactly like the array iterator of the
dispatch loop over an array the handlers mutate. -/

/-- Settlement of the `wait_for_event` promise. -/
inductive WaitOutcome where
  | resolved (event : String) (data : String)
  | timedOut
deriving Repr, DecidableEq

/-- State of one `wait_for_event` call: still-registered temporary
handler indices, whether the timer is still scheduled, and the promise
settlement. -/
structure WaitState where
  reg : List Nat
  timerActive : Bool
  result : Option WaitOutcome
deriving Repr, DecidableEq

/-- The listener array of name `e`: the registered handler indices
whose name is `e`, in registration order. -/
def handlers (names : List String) (reg : List Nat) (e : String) : List Nat :=
  reg.filter (fun j => names.get? j == some e)

/-- Helper for `last_idx`: the index of the last occurrence of `e`,
offset by `i`. -/
def last_idx_aux (e : String) : List String → Nat → Option Nat
  | [], _ => none
  | n :: rest, i =>
    match last_idx_aux e rest (i + 1) with
    | some j => some j
    | none => if n == e then some i else none

/-- The handler held by the `event_handlers` map for a name: the last
registration for that name wins. -/
def last_idx (names : List String) (e : String) : Option Nat :=
  last_idx_aux e names 0

/-- `client.off(e, handler h)`: remove the handler from the listener
array of `e` when registered there. -/
def off (names : List String) (reg : List Nat) (e : String) (h : Nat) : List Nat :=
  if names.get? h == some e then reg.erase h else reg

/-- The unsubscription loop run by both the resolving handler and the
timeout handler: for every listed name, `off` the handler held by the
`event_handlers` map. -/
def remove_all (names : List String) (reg : List Nat) : List Nat :=
  names.foldl (fun r e =>
    match last_idx names e with
    | some h => off names r e h
    | none => r) reg

/-- `resolve`/`reject` on the promise: only the first settlement takes. -/
def settle (st : WaitState) (o : WaitOutcome) : WaitState :=
  match st.result with
  | some _ => st
  | none => { st with result := some o }

/-- Body of the temporary handler with index `j`: clear the timer,
unsubscribe every handler held by the map, resolve with the captured
event name and the delivered data. -/
def run_handler (names : List String) (j : Nat) (data : String)
    (st : WaitState) : WaitState :=
  settle { st with timerActive := false, reg := remove_all names st.reg }
    (WaitOutcome.resolved ((names.get? j).getD "") data)

/-- The dispatch loop for one inbound event over the live listener
array of `e`, with an advancing index. -/
def emit_loop (names : List String) (e data : String) :
    Nat → Nat → WaitState → WaitState
  | _, 0, st => st
  | i, fuel + 1, st =>
    match (handlers names st.reg e).get? i with
    | some j => emit_loop names e data (i + 1) fuel (run_handler names j data st)
    | none => st

/-- Deliver one event.  The fuel is the initial listener count: the
handlers only unsubscribe, so the live array never grows and the loop
always exits on the index check before the fuel runs out. -/
def emit (names : List String) (e data : String) (st : WaitState) : WaitState :=
  emit_loop names e data 0 (handlers names st.reg e).length st

/-- The timeout handler: when the timer is still scheduled, unsubscribe
every handler held by the map and reject. -/
def timeout_fire (names : List String) (st : WaitState) : WaitState :=
  if st.timerActive then
    settle { st with timerActive := false, reg := remove_all names st.reg }
      WaitOutcome.timedOut
  else st

/-- State right after `wait_for_event(names, timeout)` registered its
handlers: one handler per listed name, timer scheduled, promise
pending. -/
def wait_init (names : List String) : WaitState :=
  { reg := List.range names.length, timerActive := true, result := none }

/-- Events observed by one `wait_for_event` call: an event emission or
the firing of the timeout timer. -/
inductive WEv where
  | emitEv (e : String) (data : String)
  | timerFire
deriving Repr, DecidableEq

/-- One dispatch turn. -/
def wstep (names : List String) (st : WaitState) (ev : WEv) : WaitState :=
  match ev with
  | .emitEv e d => emit names e d st
  | .timerFire => timeout_fire names st

/-- Run a `wait_for_event` call over a trace of dispatch turns. -/
def wrun (names : List String) (st : WaitState) (tr : List WEv) : WaitState :=
  tr.foldl (wstep names) st

/-! ## Wait-for-event lemmas -/

theorem settle_result_some (st : WaitState) (o o0 : WaitOutcome)
    (h : st.result = some o0) : settle st o = st := by
  simp [settle, h]

theorem settle_result_none (st : WaitState) (o : WaitOutcome)
    (h : st.result = none) : settle st o = { st with result := some o } := by
  simp [settle, h]

theorem settle_isSome (st : WaitState) (o : WaitOutcome) :
    (settle st o).result.isSome = true := by
  cases h : st.result with
  | some x => simp [settle, h]
  | none => simp [settle, h]

theorem run_handler_mono (names : List String) (j : Nat) (d : String)
    (st : WaitState) (o : WaitOutcome) (h : st.result = some o) :
    (run_handler names j d st).result = some o := by
  unfold run_handler
  have hx : ({ st with timerActive := false, reg := remove_all names st.reg } : WaitState).result = some o := h
  rw [settle_result_some _ _ o hx]
  exact hx

theorem run_handler_isSome (names : List String) (j : Nat) (d : String)
    (st : WaitState) : (run_handler names j d st).result.isSome = true :=
  settle_isSome _ _

theorem emit_loop_mono (names : List String) (e d : String) (o : WaitOutcome) :
    ∀ (fuel i : Nat) (st : WaitState), st.result = some o →
      (emit_loop names e d i fuel st).result = some o := by
  intro fuel
  induction fuel with
  | zero => intro i st h; exact h
  | succ n ih =>
    intro i st h
    rw [show emit_loop names e d i (n + 1) st =
        (match (handlers names st.reg e).get? i with
          | some j => emit_loop names e d (i + 1) n (run_handler names j d st)
          | none => st) from rfl]
    cases hg : (handlers names st.reg e).get? i with
    | some j => exact ih (i + 1) _ (run_handler_mono names j d st o h)
    | none => exact h

theorem emit_loop_isSome (names : List String) (e d : String) :
    ∀ (fuel i : Nat) (st : WaitState), st.result.isSome = true →
      (emit_loop names e d i fuel st).result.isSome = true := by
  intro fuel i st h
  obtain ⟨o, ho⟩ := Option.isSome_iff_exists.mp h
  rw [emit_loop_mono names e d o fuel i st ho]
  rfl

theorem wstep_mono (names : List String) (st : WaitState) (ev : WEv)
    (o : WaitOutcome) (h : st.result = some o) :
    (wstep names st ev).result = some o := by
  cases ev with
  | emitEv e d => exact emit_loop_mono names e d o _ 0 st h
  | timerFire =>
    show (timeout_fire names st).result = some o
    unfold timeout_fire
    by_cases ht : st.timerActive
    · rw [if_pos ht]
      have hx : ({ st with timerActive := false, reg := remove_all names st.reg } : WaitState).result = some o := h
      rw [settle_result_some _ _ o hx]
      exact hx
    · rw [if_neg ht]
      exact h

theorem wrun_mono (names : List String) (o : WaitOutcome) :
    ∀ (tr : List WEv) (st : WaitState), st.result = some o →
      (wrun names st tr).result = some o := by
  intro tr
  induction tr with
  | nil => intro st h; exact h
  | cons ev t ih => intro st h; exact ih _ (wstep_mono names st ev o h)

/-- If the promise is unsettled, the timer is still scheduled (the only
way to clear or spend the timer settles the promise in the same turn). -/
def WaitTimerInv (st : WaitState) : Prop :=
  st.result = none → st.timerActive = true

theorem timeout_fire_isSome (names : List String) (st : WaitState)
    (h : WaitTimerInv st) : (timeout_fire names st).result.isSome = true := by
  unfold timeout_fire
  by_cases ht : st.timerActive
  · rw [if_pos ht]
    exact settle_isSome _ _
  · rw [if_neg ht]
    cases hr : st.result with
    | some o => simp
    | none => exact absurd (h hr) ht

theorem wstep_timer_inv (names : List String) (st : WaitState) (ev : WEv)
    (h : WaitTimerInv st) : WaitTimerInv (wstep names st ev) := by
  cases ev with
  | emitEv e d =>
    show WaitTimerInv (emit names e d st)
    unfold emit
    cases hfuel : (handlers names st.reg e).length with
    | zero => exact h
    | succ n =>
      rw [show emit_loop names e d 0 (n + 1) st =
          (match (handlers names st.reg e).get? 0 with
            | some j => emit_loop names e d 1 n (run_handler names j d st)
            | none => st) from rfl]
      cases hg : (handlers names st.reg e).get? 0 with
      | some j =>
        intro hres
        have := emit_loop_isSome names e d n 1 (run_handler names j d st)
          (run_handler_isSome names j d st)
        rw [hres] at this
        cases this
      | none => exact h
  | timerFire =>
    show WaitTimerInv (timeout_fire names st)
    intro hres
    have := timeout_fire_isSome names st h
    rw [hres] at this
    cases this

theorem timer_in_trace_settles (names : List String) :
    ∀ (tr : List WEv) (st : WaitState), WaitTimerInv st →
      WEv.timerFire ∈ tr → (wrun names st tr).result.isSome = true := by
  intro tr
  induction tr with
  | nil =>
    intro st _ hmem
    exact absurd hmem (List.not_mem_nil _)
  | cons ev t ih =>
    intro st hinv hmem
    by_cases hev : ev = WEv.timerFire
    · subst hev
      have hs := timeout_fire_isSome names st hinv
      obtain ⟨o, ho⟩ := Option.isSome_iff_exists.mp hs
      show (wrun names (timeout_fire names st) t).result.isSome = true
      rw [wrun_mono names o t _ ho]
      rfl
    · have hmem' : WEv.timerFire ∈ t := by
        cases hmem with
        | head => exact absurd rfl hev
        | tail _ hm => exact hm
      exact ih _ (wstep_timer_inv names st ev hinv) hmem'

/-! ## Listener removal under distinct names -/

theorem last_idx_aux_not_mem (e : String) :
    ∀ (l : List String) (i : Nat), e ∉ l → last_idx_aux e l i = none := by
  intro l
  induction l with
  | nil => intro i _; rfl
  | cons a t ih =>
    intro i hnot
    have hnt : e ∉ t := fun hm => hnot (List.mem_cons_of_mem a hm)
    have ha : (a == e) = false := by
      refine beq_eq_false_iff_ne.mpr ?_
      exact fun hh => hnot (hh ▸ List.mem_cons_self a t)
    simp [last_idx_aux, ih i.succ hnt, ha]

theorem last_idx_aux_nodup (e : String) :
    ∀ (l : List String) (k i : Nat), l.Nodup → l.get? k = some e →
      last_idx_aux e l i = some (i + k) := by
  intro l
  induction l with
  | nil =>
    intro k i _ hk
    simp at hk
  | cons a t ih =>
    intro k i hnd hk
    cases k with
    | zero =>
      have ha : a = e := by simpa using hk
      have hnt : e ∉ t := ha ▸ (List.nodup_cons.mp hnd).1
      show (match last_idx_aux e t (i + 1) with
        | some j => some j
        | none => if a == e then some i else none) = some (i + 0)
      rw [last_idx_aux_not_mem e t (i + 1) hnt]
      simp [ha]
    | succ q =>
      have hk2 : t.get? q = some e := by simpa using hk
      have hrec := ih q (i + 1) (List.nodup_cons.mp hnd).2 hk2
      show (match last_idx_aux e t (i + 1) with
        | some j => some j
        | none => if a == e then some i else none) = some (i + (q + 1))
      rw [hrec]
      have : i + 1 + q = i + (q + 1) := by omega
      rw [this]

theorem last_idx_nodup (names : List String) (h : names.Nodup) (k : Nat)
    (e : String) (hk : names.get? k = some e) : last_idx names e = some k := by
  have := last_idx_aux_nodup e names k 0 h hk
  simpa [last_idx] using this

theorem list_diff_self_nil : ∀ (l : List Nat), l.diff l = [] := by
  intro l
  induction l with
  | nil => rfl
  | cons a t ih =>
    rw [List.diff_cons, List.erase_cons_head]
    exact ih

theorem remove_all_aux (names : List String) (h : names.Nodup) :
    ∀ (t pre : List String), names = pre ++ t →
      ∀ r : List Nat,
        t.foldl (fun r e =>
          match last_idx names e with
          | some hh => off names r e hh
          | none => r) r = r.diff (List.range' pre.length t.length) := by
  intro t
  induction t with
  | nil =>
    intro pre _ r
    rfl
  | cons e t2 ih =>
    intro pre hsplit r
    have hk : names.get? pre.length = some e := by
      rw [hsplit, List.get?_eq_getElem?, List.getElem?_append_right (Nat.le_refl _)]
      simp
    have hli : last_idx names e = some pre.length := last_idx_nodup names h pre.length e hk
    have hstep : (match last_idx names e with
        | some hh => off names r e hh
        | none => r) = r.erase pre.length := by
      rw [hli]
      show (if names.get? pre.length == some e then r.erase pre.length else r)
        = r.erase pre.length
      rw [hk]
      simp
    rw [List.foldl_cons]
    rw [hstep]
    have hpre2 : names = (pre ++ [e]) ++ t2 := by
      rw [hsplit]
      simp
    have hrec := ih (pre ++ [e]) hpre2 (r.erase pre.length)
    rw [List.length_append, List.length_singleton] at hrec
    rw [hrec]
    rw [show (e :: t2).length = t2.length + 1 from rfl]
    rw [List.range'_succ pre.length t2.length 1, List.diff_cons]

theorem remove_all_range_nil (names : List String) (h : names.Nodup) :
    remove_all names (List.range names.length) = [] := by
  have hx := remove_all_aux names h names [] rfl (List.range names.length)
  simp only [List.length_nil] at hx
  show names.foldl (fun r e =>
    match last_idx names e with
    | some hh => off names r e hh
    | none => r) (List.range names.length) = []
  rw [hx, ← List.range_eq_range' names.length]
  exact list_diff_self_nil _

/-! ## Emission lemmas -/

theorem handlers_not_mem (names : List String) (reg : List Nat) (e : String)
    (h : e ∉ names) : handlers names reg e = [] := by
  rw [handlers, List.filter_eq_nil_iff]
  intro j _ hj
  have hsome : names.get? j = some e := by simpa using hj
  exact h (List.get?_mem hsome)

theorem handlers_mem_names (names : List String) (reg : List Nat) (e : String)
    (j : Nat) (h : j ∈ handlers names reg e) : names.get? j = some e := by
  have := (List.mem_filter.mp h).2
  simpa using this

theorem handlers_ne_nil (names : List String) (e : String) (h : e ∈ names) :
    handlers names (List.range names.length) e ≠ [] := by
  obtain ⟨k, hk⟩ := List.mem_iff_get?.mp h
  have hklt : k < names.length := by
    by_contra hge
    rw [List.get?_eq_none.mpr (Nat.le_of_not_lt hge)] at hk
    cases hk
  intro hnil
  have hm : k ∈ handlers names (List.range names.length) e := by
    rw [handlers]
    refine List.mem_filter.mpr ⟨List.mem_range.mpr hklt, ?_⟩
    have hk2 : names[k]? = some e := by rw [← List.get?_eq_getElem?]; exact hk
    simp [hk2]
  rw [hnil] at hm
  exact absurd hm (List.not_mem_nil k)

theorem emit_loop_empty (names : List String) (e d : String) (i fuel : Nat)
    (st : WaitState) (h : handlers names st.reg e = []) :
    emit_loop names e d i fuel st = st := by
  cases fuel with
  | zero => rfl
  | succ n =>
    show (match (handlers names st.reg e).get? i with
      | some j => emit_loop names e d (i + 1) n (run_handler names j d st)
      | none => st) = st
    rw [h]
    rfl

theorem emit_not_listed (names : List String) (e d : String) (st : WaitState)
    (h : e ∉ names) : emit names e d st = st :=
  emit_loop_empty names e d 0 _ st (handlers_not_mem names st.reg e h)

theorem emit_step_cons (names : List String) (e d : String) (st : WaitState)
    (j : Nat) (rest : List Nat) (hh : handlers names st.reg e = j :: rest) :
    emit names e d st = emit_loop names e d 1 rest.length (run_handler names j d st) := by
  have h1 : emit names e d st = emit_loop names e d 0 (rest.length + 1) st := by
    show emit_loop names e d 0 (handlers names st.reg e).length st = _
    rw [hh, List.length_cons]
  rw [h1]
  show (match (handlers names st.reg e).get? 0 with
    | some jj => emit_loop names e d 1 rest.length (run_handler names jj d st)
    | none => st) = _
  rw [hh]
  rfl

theorem emit_fresh_listed (names : List String) (h : names.Nodup) (e d : String)
    (he : e ∈ names) :
    emit names e d (wait_init names) = ⟨[], false, some (WaitOutcome.resolved e d)⟩ := by
  have hne := handlers_ne_nil names e he
  cases hh : handlers names (List.range names.length) e with
  | nil => exact absurd hh hne
  | cons j rest =>
    have hh2 : handlers names (wait_init names).reg e = j :: rest := hh
    have hj : names.get? j = some e :=
      handlers_mem_names names (List.range names.length) e j
        (by rw [hh]; exact List.mem_cons_self j rest)
    rw [emit_step_cons names e d (wait_init names) j rest hh2]
    have hrh : run_handler names j d (wait_init names)
        = ⟨[], false, some (WaitOutcome.resolved e d)⟩ := by
      show settle { wait_init names with timerActive := false, reg := remove_all names (wait_init names).reg } (WaitOutcome.resolved ((names.get? j).getD "") d) = _
      rw [settle_result_none _ _ rfl]
      show (⟨remove_all names (List.range names.length), false, some (WaitOutcome.resolved ((names.get? j).getD "") d)⟩ : WaitState) = _
      rw [remove_all_range_nil names h, hj]
      rfl
    rw [hrh]
    exact emit_loop_empty names e d 1 rest.length _ rfl

/-! ## Wait-for-event invariant and main theorems (claim C4) -/

/-- Invariant of one `wait_for_event` call: while the promise is
pending, the timer is scheduled and every temporary handler is still
registered; once it is settled, the timer is gone and no temporary
listener remains on any name. -/
def WaitInv (names : List String) (st : WaitState) : Prop :=
  (st.result = none → st.timerActive = true ∧ st.reg = List.range names.length)
  ∧ (st.result.isSome = true →
      st.timerActive = false ∧ ∀ e, handlers names st.reg e = [])

theorem wait_init_inv (names : List String) : WaitInv names (wait_init names) := by
  constructor
  · intro _
    exact ⟨rfl, rfl⟩
  · intro hcontra
    cases hcontra

theorem wstep_inv (names : List String) (h : names.Nodup) (st : WaitState)
    (ev : WEv) (hinv : WaitInv names st) : WaitInv names (wstep names st ev) := by
  cases hres : st.result with
  | some o =>
    obtain ⟨htf, hreg⟩ := hinv.2 (by rw [hres]; rfl)
    have hfix : wstep names st ev = st := by
      cases ev with
      | emitEv e d => exact emit_loop_empty names e d 0 _ st (hreg e)
      | timerFire =>
        show timeout_fire names st = st
        unfold timeout_fire
        rw [htf]
        simp
    rw [hfix]
    exact hinv
  | none =>
    obtain ⟨hta, hreg⟩ := hinv.1 hres
    cases ev with
    | timerFire =>
      have hfix : timeout_fire names st = ⟨[], false, some WaitOutcome.timedOut⟩ := by
        unfold timeout_fire
        rw [hta]
        rw [if_pos rfl]
        rw [settle_result_none
          { st with timerActive := false, reg := remove_all names st.reg }
          WaitOutcome.timedOut hres]
        show (⟨remove_all names st.reg, false, some WaitOutcome.timedOut⟩ : WaitState) = _
        rw [hreg, remove_all_range_nil names h]
      show WaitInv names (timeout_fire names st)
      rw [hfix]
      refine ⟨fun hc => Option.noConfusion hc, fun _ => ⟨rfl, fun e => rfl⟩⟩
    | emitEv e d =>
      show WaitInv names (emit names e d st)
      by_cases he : e ∈ names
      · have hst : st = wait_init names := by
          cases st with
          | mk r t res =>
            simp only at hta hreg hres
            rw [wait_init, hta, hreg, hres]
        rw [hst, emit_fresh_listed names h e d he]
        refine ⟨fun hc => Option.noConfusion hc, fun _ => ⟨rfl, fun x => rfl⟩⟩
      · rw [emit_not_listed names e d st he]
        exact hinv

theorem wrun_inv (names : List String) (h : names.Nodup) :
    ∀ (tr : List WEv) (st : WaitState), WaitInv names st →
      WaitInv names (wrun names st tr) := by
  intro tr
  induction tr with
  | nil => intro st hinv; exact hinv
  | cons ev t ih => intro st hinv; exact ih _ (wstep_inv names h st ev hinv)

theorem inert_steps (names : List String) :
    ∀ (tr0 : List WEv) (st : WaitState),
      (∀ x dx, WEv.emitEv x dx ∈ tr0 → x ∉ names) → WEv.timerFire ∉ tr0 →
      wrun names st tr0 = st := by
  intro tr0
  induction tr0 with
  | nil => intro st _ _; rfl
  | cons ev t ih =>
    intro st hin htf
    cases ev with
    | emitEv x dx =>
      have hx : x ∉ names := hin x dx (List.mem_cons_self _ _)
      show wrun names (emit names x dx st) t = st
      rw [emit_not_listed names x dx st hx]
      exact ih st (fun y dy hm => hin y dy (List.mem_cons_of_mem _ hm))
        (fun hm => htf (List.mem_cons_of_mem _ hm))
    | timerFire => exact absurd (List.mem_cons_self _ _) htf

/-- C4 counterexample to the claim as stated: for the duplicate name
list `["a", "a"]` — the handler map is keyed by name, so registering the
second handler overwrites the map entry used for unsubscription — a
single matching emission resolves the promise, yet the temporary
listener registered first for the listed name `"a"` is NOT removed: it
is still the registered listener with index 0. -/
theorem wait_unsubscribe_counterexample :
    (wrun ["a", "a"] (wait_init ["a", "a"]) [WEv.emitEv "a" "d"]).result
        = some (WaitOutcome.resolved "a" "d")
    ∧ handlers ["a", "a"]
        (wrun ["a", "a"] (wait_init ["a", "a"]) [WEv.emitEv "a" "d"]).reg "a"
        = [0] := by
  constructor
  · decide
  · decide

/-- C4 (amended): for every `wait_for_event` call with pairwise distinct
listed names, over any interleaving of event emissions and the timer
firing: the promise settles at most once (a settlement is never changed
by later activity, so two matching events back-to-back resolve only
once); if the timer fires, the promise is settled from that point on
(so exactly one of resolve and timeout-reject occurs); once settled —
by either path — no temporary listener remains registered on any name,
including the names that did not fire; and the first arriving listed
event resolves the promise with exactly that `{event, data}` pair.
With duplicate listed names, settlement still occurs exactly once, but
an earlier duplicate listener can stay registered. -/
theorem wait_for_event_exactly_once (names : List String) (hnd : names.Nodup)
    (tr : List WEv) :
    ((WEv.timerFire ∈ tr) →
      (wrun names (wait_init names) tr).result.isSome = true)
    ∧ (∀ (o : WaitOutcome) (tr2 : List WEv),
        (wrun names (wait_init names) tr).result = some o →
        (wrun names (wrun names (wait_init names) tr) tr2).result = some o)
    ∧ (∀ o : WaitOutcome, (wrun names (wait_init names) tr).result = some o →
        ∀ e, handlers names (wrun names (wait_init names) tr).reg e = [])
    ∧ (∀ (tr0 tr1 : List WEv) (e d : String),
        tr = tr0 ++ WEv.emitEv e d :: tr1 →
        (∀ x dx, WEv.emitEv x dx ∈ tr0 → x ∉ names) →
        WEv.timerFire ∉ tr0 →
        e ∈ names →
        (wrun names (wait_init names) tr).result
          = some (WaitOutcome.resolved e d)) := by
  refine ⟨?_, ?_, ?_, ?_⟩
  · intro hmem
    exact timer_in_trace_settles names tr (wait_init names) (fun _ => rfl) hmem
  · intro o tr2 hres
    exact wrun_mono names o tr2 _ hres
  · intro o hres
    have hinv := wrun_inv names hnd tr (wait_init names) (wait_init_inv names)
    exact (hinv.2 (by rw [hres]; rfl)).2
  · intro tr0 tr1 e d hsplit hinert htfr he
    rw [hsplit]
    rw [show wrun names (wait_init names) (tr0 ++ WEv.emitEv e d :: tr1)
        = wrun names (wrun names (wait_init names) tr0) (WEv.emitEv e d :: tr1)
      from List.foldl_append _ _ _ _]
    rw [inert_steps names tr0 (wait_init names) hinert htfr]
    show (wrun names (emit names e d (wait_init names)) tr1).result = _
    rw [emit_fresh_listed names hnd e d he]
    exact wrun_mono names _ tr1 _ rfl

/-- Witness for C4 (amended) at the scenario of the specification:
waiting on `stopped` and `continued` and emitting `continued` resolves
with that event. -/
theorem wait_for_event_exactly_once_witness :
    (wrun ["stopped", "continued"] (wait_init ["stopped", "continued"])
      [WEv.emitEv "continued" "d1"]).result
      = some (WaitOutcome.resolved "continued" "d1") :=
  (wait_for_event_exactly_once ["stopped", "continued"] (by decide)
    [WEv.emitEv "continued" "d1"]).2.2.2 [] [] "continued" "d1" rfl
    (fun x dx hm => absurd hm (List.not_mem_nil _))
    (List.not_mem_nil _) (by decide)

end VDB
